import Mathlib

/-!
Shallow embedding of `src/instagram_follower.py` (PinkeshGjr/PIRService).

The persistent follow cache (`FollowCache`) is a JSON object mapping the
string form of a user id to a record with fields `username`, `status`,
`source`, `timestamp`, `attempts`.  Since the cache is loaded from disk,
an entry may lack any of those fields, so every field is `Option`-valued;
the code accesses them with `dict.get` and a default where it matters.

Python dicts are modelled as association lists in insertion order with
unique keys (`cacheKeysNodup`); assignment to an existing key replaces the
value in place, assignment to a fresh key appends.

`datetime.now().isoformat()` timestamps are modelled by an abstract clock
(`OrchState.clock : Nat`) that ticks once per cache write; `time.sleep`
and the post-follow pacing delay are modelled as emitted effect values
where a claim needs them.  Disk persistence (`_save_cache`) rewrites the
whole snapshot from the in-memory dict on every mutation and swallows
write errors, so the persisted snapshot is the in-memory cache whenever
the write succeeds; `clear_failed` exposes the snapshot it writes.
-/

namespace InstagramFollower

/-- A cache entry: the JSON record stored under `str(user_id)`.
Fields are optional because entries loaded from disk may omit them. -/
structure Entry where
  username : Option String
  status : Option String
  source : Option String
  timestamp : Option Nat
  attempts : Option Nat
deriving Repr, DecidableEq

/-- The in-memory mirror of the persistent cache: a Python dict from
`str(user_id)` to an entry, as an insertion-ordered association list. -/
abbrev Cache := List (String × Entry)

/-- Instagram user ids (`user_info.pk`, `user_id`): nonnegative ints. -/
abbrev UserId := Nat

/-- Python `d.get(k)` on a dict: first (only) binding of `k`, if any. -/
def cacheGet (c : Cache) (k : String) : Option Entry :=
  (c.find? (fun p => p.1 == k)).map Prod.snd

/-- Python `k in d`. -/
def cacheHas (c : Cache) (k : String) : Bool :=
  (cacheGet c k).isSome

/-- Python `d[k] = v`: replace the binding in place when the key exists
(dict keys are unique, so the first binding is the only one), else
append the new binding at the end. -/
def cacheSet : Cache → String → Entry → Cache
  | [], k, v => [(k, v)]
  | p :: c, k, v => if p.1 == k then (k, v) :: c else p :: cacheSet c k v

/-- Python dicts cannot hold a key twice; caches reachable by the code
satisfy this. -/
def cacheKeysNodup (c : Cache) : Prop :=
  (c.map Prod.fst).Nodup

/-- `FollowCache.is_processed`: `str(user_id) in self.cache`. -/
def is_processed (c : Cache) (uid : UserId) : Bool :=
  cacheHas c (toString uid)

/-- `FollowCache.get_user`: `self.cache.get(str(user_id))`. -/
def get_user (c : Cache) (uid : UserId) : Option Entry :=
  cacheGet c (toString uid)

/-- `FollowCache.add_user`: upsert the entry for `str(user_id)`; the new
`attempts` is `cache.get(str(user_id), \x7b\x7d).get("attempts", 0) + 1`,
read from the cache before the assignment.  `now` models
`datetime.now().isoformat()`. -/
def add_user (c : Cache) (uid : UserId) (username status source : String)
    (now : Nat) : Cache :=
  cacheSet c (toString uid)
    { username := some username
      status := some status
      source := some source
      timestamp := some now
      attempts := some ((((cacheGet c (toString uid)).map
        (fun e => e.attempts.getD 0)).getD 0) + 1) }

/-- The stats dict built by `FollowCache.get_stats`; its keys are exactly
`total`, `followed`, `failed`, `skipped`, `already_following`. -/
structure Stats where
  total : Nat
  followed : Nat
  failed : Nat
  skipped : Nat
  already_following : Nat
deriving Repr, DecidableEq

/-- One loop iteration of `get_stats`: `if status in stats:
stats[status] += 1`.  Note `"total"` is a key of the stats dict, so a
stored status equal to `"total"` increments `total`. -/
def bumpStat (s : Stats) (status : String) : Stats :=
  if status = "total" then { s with total := s.total + 1 }
  else if status = "followed" then { s with followed := s.followed + 1 }
  else if status = "failed" then { s with failed := s.failed + 1 }
  else if status = "skipped" then { s with skipped := s.skipped + 1 }
  else if status = "already_following" then
    { s with already_following := s.already_following + 1 }
  else s

/-- `FollowCache.get_stats`: start from `total = len(cache)` and zero
counters, then bump per entry with `user_data.get("status", "unknown")`. -/
def get_stats (c : Cache) : Stats :=
  c.foldl (fun s p => bumpStat s (p.2.status.getD "unknown"))
    { total := c.length, followed := 0, failed := 0, skipped := 0
      already_following := 0 }

/-- Observable outcome of `FollowCache.clear_failed`: the new in-memory
cache, the snapshot handed to `_save_cache`, the count that is logged,
and the Python return value — the function body has no `return`
statement, so it returns `None`. -/
structure ClearFailedResult where
  cache : Cache
  saved : Cache
  loggedCount : Nat
  ret : Option Int
deriving Repr, DecidableEq

/-- `FollowCache.clear_failed`: collect the keys whose entry has
`data.get("status") == "failed"`, delete them, save, log the count. -/
def clear_failed (c : Cache) : ClearFailedResult :=
  let toRemove := (c.filter (fun p => p.2.status == some "failed")).map Prod.fst
  let c' := c.filter (fun p => !(p.2.status == some "failed"))
  { cache := c', saved := c', loggedCount := toRemove.length, ret := none }

/-- The policy-relevant part of `config["settings"]`.  `min_followers`
defaults to `0` and `max_followers` to `float('inf')` (modelled as
`none`: no finite bound, so the `>` test is never true); the two skip
flags default to falsy. -/
structure Settings where
  min_followers : Option Nat
  max_followers : Option Nat
  skip_private_accounts : Bool
  skip_business_accounts : Bool
deriving Repr, DecidableEq

/-- A full user profile as returned by `client.user_info`:
the fields the core reads (`pk`, `username`, `follower_count`,
`is_private`, `is_business`, `following`). -/
structure Profile where
  pk : UserId
  username : String
  follower_count : Nat
  is_private : Bool
  is_business : Bool
  following : Bool
deriving Repr, DecidableEq

/-- Orchestrator-visible mutable state: the cache plus the abstract
clock supplying `datetime.now()` timestamps (one tick per write). -/
structure OrchState where
  cache : Cache
  clock : Nat
deriving Repr, DecidableEq

/-- A `self.cache.add_user(...)` call made by the bot: writes with the
current clock as timestamp and advances the clock. -/
def record_user (s : OrchState) (uid : UserId)
    (username status source : String) : OrchState :=
  { cache := add_user s.cache uid username status source s.clock
    clock := s.clock + 1 }

/-- `InstagramFollowerBot._should_follow_user(user_info, source)`:
returns the bool verdict together with the state left behind — the
method itself calls `self.cache.add_user(..., "skipped", source)` in its
four threshold/private/business rejection branches. -/
def should_follow_user (settings : Settings) (s : OrchState)
    (info : Profile) (source : String) : Bool × OrchState :=
  if is_processed s.cache info.pk then (false, s)
  else if info.follower_count < settings.min_followers.getD 0 then
    (false, record_user s info.pk info.username "skipped" source)
  else if (match settings.max_followers with
           | some m => decide (info.follower_count > m)
           | none => false) then
    (false, record_user s info.pk info.username "skipped" source)
  else if settings.skip_private_accounts && info.is_private then
    (false, record_user s info.pk info.username "skipped" source)
  else if settings.skip_business_accounts && info.is_business then
    (false, record_user s info.pk info.username "skipped" source)
  else (true, s)

/-- Behaviour of one `client.user_follow(user_id)` call: returns a bool,
raises `PleaseWaitFewMinutes`, raises another `ClientError`, or raises
an exception matching neither `except` clause of `follow_user`. -/
inductive FollowOutcome where
  | ok (result : Bool)
  | rateLimited
  | clientError
  | raise
deriving Repr, DecidableEq

/-- The external instagrapi client, as the deterministic oracle the run
consults.  `resolve u = none` models `user_id_from_username` raising
(`UserNotFound` or otherwise); `fullInfo uid = none` models `user_info`
raising; `followers uid amount` is the batch returned by
`user_followers(uid, amount=amount)` in iteration order. -/
structure Env where
  resolve : String → Option UserId
  fullInfo : UserId → Option Profile
  followOutcome : UserId → FollowOutcome
  followers : UserId → Nat → List (UserId × String)

/-- `true` exactly when a `user_follow` call on this outcome returns a
truthy result. -/
def isOkTrue : FollowOutcome → Bool
  | .ok true => true
  | _ => false

instance : DecidableEq (Except Unit Bool) := fun a b =>
  match a, b with
  | .ok x, .ok y =>
      if h : x = y then .isTrue (by rw [h])
      else .isFalse (fun q => h (by cases q; rfl))
  | .ok _, .error _ => .isFalse (fun q => Except.noConfusion q)
  | .error _, .ok _ => .isFalse (fun q => Except.noConfusion q)
  | .error x, .error y => .isTrue (by cases x; cases y; rfl)

/-- Observable result of `InstagramFollowerBot.follow_user`: final
state, the `user_follow` invocations made (always exactly one), the
`time.sleep` durations executed inside the method, and the return —
`Except.error ()` models an exception neither handler catches, which
propagates to the caller. -/
structure FollowUserResult where
  state : OrchState
  follows : List UserId
  sleeps : List Nat
  ret : Except Unit Bool
deriving Repr, DecidableEq

/-- `InstagramFollowerBot.follow_user(user_id, username, source)`:
one `client.user_follow` call; truthy result records `followed`; falsy
records `failed`; `PleaseWaitFewMinutes` records `failed` then
`time.sleep(300)` and returns `False`; other `ClientError` records
`failed` and returns `False`; any other exception propagates with no
write. -/
def follow_user (env : Env) (s : OrchState) (uid : UserId)
    (username source : String) : FollowUserResult :=
  match env.followOutcome uid with
  | .ok true =>
      { state := record_user s uid username "followed" source
        follows := [uid], sleeps := [], ret := .ok true }
  | .ok false =>
      { state := record_user s uid username "failed" source
        follows := [uid], sleeps := [], ret := .ok false }
  | .rateLimited =>
      { state := record_user s uid username "failed" source
        follows := [uid], sleeps := [300], ret := .ok false }
  | .clientError =>
      { state := record_user s uid username "failed" source
        follows := [uid], sleeps := [], ret := .ok false }
  | .raise =>
      { state := s, follows := [uid], sleeps := [], ret := .error () }

/-- Observable result of processing one candidate: state afterwards,
the increment to `followed_count`, the `user_follow` invocations and
the `user_info` (profile fetch) invocations it caused. -/
structure StepRes where
  state : OrchState
  dFollowed : Nat
  follows : List UserId
  fetches : List UserId
deriving Repr, DecidableEq

/-- One iteration of the `for username in accounts` loop of
`follow_specific_accounts`: resolve, cache check, `user_info`,
`following` check (records `already_following`), then `follow_user`
with source `"specific"`; every exception is caught by the per-username
handlers and the loop moves on. -/
def specific_step (env : Env) (s : OrchState) (username : String) : StepRes :=
  match env.resolve username with
  | none => { state := s, dFollowed := 0, follows := [], fetches := [] }
  | some uid =>
      if is_processed s.cache uid then
        { state := s, dFollowed := 0, follows := [], fetches := [] }
      else
        match env.fullInfo uid with
        | none => { state := s, dFollowed := 0, follows := [], fetches := [uid] }
        | some info =>
            if info.following then
              { state := record_user s uid username "already_following" "specific"
                dFollowed := 0, follows := [], fetches := [uid] }
            else
              let fr := follow_user env s uid username "specific"
              { state := fr.state
                dFollowed := if fr.ret = .ok true then 1 else 0
                follows := fr.follows, fetches := [uid] }

/-- Observable result of a whole pipeline call: final state, the
returned `followed_count`, and the `user_follow` / `user_info`
invocations in order. -/
structure RunRes where
  state : OrchState
  followedCount : Nat
  follows : List UserId
  fetches : List UserId
deriving Repr, DecidableEq

/-- `InstagramFollowerBot.follow_specific_accounts(accounts)`. -/
def follow_specific_accounts (env : Env) (s : OrchState) :
    List String → RunRes
  | [] => { state := s, followedCount := 0, follows := [], fetches := [] }
  | u :: rest =>
      let st := specific_step env s u
      let r := follow_specific_accounts env st.state rest
      { state := r.state
        followedCount := st.dFollowed + r.followedCount
        follows := st.follows ++ r.follows
        fetches := st.fetches ++ r.fetches }

/-- The per-candidate body of the `for follower_id, follower_info in
followers.items()` loop in `follow_account_followers` (after the cap
break): cache check, `user_info` fetch (an exception there is caught
and the loop continues), `following` check recording
`already_following` under the lightweight `follower_info.username`,
`_should_follow_user` on the full profile, then `follow_user`; an
exception from `user_follow` not caught inside `follow_user` is caught
by the per-candidate handler. -/
def followers_step (env : Env) (settings : Settings) (target : String)
    (s : OrchState) (uid : UserId) (uname : String) : StepRes :=
  if is_processed s.cache uid then
    { state := s, dFollowed := 0, follows := [], fetches := [] }
  else
    match env.fullInfo uid with
    | none => { state := s, dFollowed := 0, follows := [], fetches := [uid] }
    | some info =>
        if info.following then
          { state := record_user s uid uname "already_following" target
            dFollowed := 0, follows := [], fetches := [uid] }
        else
          let p := should_follow_user settings s info target
          if p.1 then
            let fr := follow_user env p.2 uid uname target
            { state := fr.state
              dFollowed := if fr.ret = .ok true then 1 else 0
              follows := fr.follows, fetches := [uid] }
          else
            { state := p.2, dFollowed := 0, follows := [], fetches := [uid] }

/-- The candidate loop of `follow_account_followers`: `followed` is the
running `followed_count`; the loop breaks as soon as
`followed_count >= max_to_follow`. -/
def followersLoop (env : Env) (settings : Settings) (target : String)
    (cap : Nat) : List (UserId × String) → OrchState → Nat → RunRes
  | [], s, followed =>
      { state := s, followedCount := followed, follows := [], fetches := [] }
  | (uid, uname) :: rest, s, followed =>
      if followed ≥ cap then
        { state := s, followedCount := followed, follows := [], fetches := [] }
      else
        let st := followers_step env settings target s uid uname
        let r := followersLoop env settings target cap rest st.state
          (followed + st.dFollowed)
        { state := r.state, followedCount := r.followedCount
          follows := st.follows ++ r.follows
          fetches := st.fetches ++ r.fetches }

/-- `InstagramFollowerBot.follow_account_followers(target, cap)`:
resolve the target (any failure returns 0 with no state change), fetch
`cap * 3` followers, then run the candidate loop from
`followed_count = 0`. -/
def follow_account_followers (env : Env) (settings : Settings)
    (s : OrchState) (target : String) (cap : Nat) : RunRes :=
  match env.resolve target with
  | none => { state := s, followedCount := 0, follows := [], fetches := [] }
  | some tuid =>
      followersLoop env settings target cap (env.followers tuid (cap * 3)) s 0

/-- The policy verdicts named by the specification. -/
inductive Verdict where
  | alreadyProcessed
  | alreadyFollowing
  | tooFew
  | tooMany
  | privateAccount
  | businessAccount
  | accept
deriving Repr, DecidableEq

/-- The evaluation order written in the specification, first matching
rule wins: ledger, already-following, minimum, maximum, private (when
the skip flag is set), business (when the skip flag is set), accept. -/
def specVerdict (settings : Settings) (c : Cache) (uid : UserId)
    (info : Profile) : Verdict :=
  if is_processed c uid then .alreadyProcessed
  else if info.following then .alreadyFollowing
  else if info.follower_count < settings.min_followers.getD 0 then .tooFew
  else if (match settings.max_followers with
           | some m => decide (info.follower_count > m)
           | none => false) then .tooMany
  else if settings.skip_private_accounts && info.is_private then .privateAccount
  else if settings.skip_business_accounts && info.is_business then .businessAccount
  else .accept

/-- A profile that passes all four configured threshold/flag checks. -/
def acceptB (settings : Settings) (info : Profile) : Bool :=
  !(decide (info.follower_count < settings.min_followers.getD 0)) &&
  !(match settings.max_followers with
    | some m => decide (info.follower_count > m)
    | none => false) &&
  !(settings.skip_private_accounts && info.is_private) &&
  !(settings.skip_business_accounts && info.is_business)

/-- A batch element is eligible with respect to a cache when the
followers pipeline, reaching it in that cache state, would follow it
successfully: not yet in the cache, profile fetch succeeds, not already
following, passes the policy checks, and the follow call returns a
truthy result. -/
def eligibleB (env : Env) (settings : Settings) (c : Cache)
    (p : UserId × String) : Bool :=
  !is_processed c p.1 &&
  (match env.fullInfo p.1 with
   | none => false
   | some info =>
       !info.following && acceptB settings info &&
       isOkTrue (env.followOutcome p.1))

/-! ### Dict lemmas -/

theorem cacheGet_nil (k : String) : cacheGet [] k = none := rfl

theorem cacheGet_cons (p : String × Entry) (c : Cache) (k : String) :
    cacheGet (p :: c) k = if p.1 == k then some p.2 else cacheGet c k := by
  simp only [cacheGet, List.find?_cons]
  cases h : p.1 == k <;> simp [h]

theorem cacheGet_set_self (c : Cache) (k : String) (v : Entry) :
    cacheGet (cacheSet c k v) k = some v := by
  induction c with
  | nil => simp [cacheSet, cacheGet_cons]
  | cons p c ih =>
      by_cases h : (p.1 == k) = true
      · simp [cacheSet, h, cacheGet_cons]
      · simp only [cacheSet, h]
        rw [if_neg (by simp [h]), cacheGet_cons, if_neg (by simp [h]), ih]

theorem cacheGet_set_other (c : Cache) (k k' : String) (v : Entry)
    (h : k' ≠ k) : cacheGet (cacheSet c k v) k' = cacheGet c k' := by
  have hk : (k == k') = false := beq_eq_false_iff_ne.mpr (Ne.symm h)
  induction c with
  | nil => simp [cacheSet, cacheGet_cons, hk]
  | cons p c ih =>
      by_cases hp : (p.1 == k) = true
      · have hpk : p.1 = k := beq_iff_eq.mp hp
        have hp' : (p.1 == k') = false := by rw [hpk]; exact hk
        simp [cacheSet, hp, cacheGet_cons, hk, hp']
      · simp only [cacheSet, hp]
        rw [if_neg (by simp [hp]), cacheGet_cons, cacheGet_cons, ih]

theorem cacheHas_iff_mem (c : Cache) (k : String) :
    cacheHas c k = true ↔ k ∈ c.map Prod.fst := by
  induction c with
  | nil => simp [cacheHas, cacheGet_nil]
  | cons p c ih =>
      by_cases hp : (p.1 == k) = true
      · have := beq_iff_eq.mp hp
        simp [cacheHas, cacheGet_cons, hp, this.symm]
      · have h2 : ¬ k = p.1 := fun q => (beq_eq_false_iff_ne.mp (by simp [hp])) q.symm
        simp only [cacheHas, cacheGet_cons] at *
        rw [if_neg (by simp [hp])]
        simp [ih, h2]

theorem cacheSet_keys (c : Cache) (k : String) (v : Entry) :
    (cacheSet c k v).map Prod.fst =
      if cacheHas c k then c.map Prod.fst else c.map Prod.fst ++ [k] := by
  induction c with
  | nil => simp [cacheSet, cacheHas, cacheGet_nil]
  | cons p c ih =>
      by_cases hp : (p.1 == k) = true
      · have hpk : p.1 = k := beq_iff_eq.mp hp
        simp [cacheSet, hp, cacheHas, cacheGet_cons, hpk]
      · have hh : cacheHas (p :: c) k = cacheHas c k := by
          simp only [cacheHas, cacheGet_cons]
          rw [if_neg (by simp [hp])]
        simp only [cacheSet]
        rw [if_neg (by simp [hp]), hh]
        by_cases hc : cacheHas c k = true
        · simp [ih, hc]
        · have hc' : cacheHas c k = false := by simpa using hc
          simp [ih, hc']

theorem cacheSet_nodup (c : Cache) (k : String) (v : Entry)
    (h : cacheKeysNodup c) : cacheKeysNodup (cacheSet c k v) := by
  unfold cacheKeysNodup at *
  rw [cacheSet_keys]
  split
  · exact h
  · next hh =>
      rw [List.nodup_append]
      refine ⟨h, List.nodup_singleton k, ?_⟩
      intro a ha hb
      simp only [List.mem_singleton] at hb
      subst hb
      exact hh ((cacheHas_iff_mem c a).mpr ha)

theorem cacheSet_count_one (c : Cache) (k : String) (v : Entry)
    (h : cacheKeysNodup c) : ((cacheSet c k v).map Prod.fst).count k = 1 := by
  apply List.count_eq_one_of_mem (cacheSet_nodup c k v h)
  apply (cacheHas_iff_mem _ k).mp
  simp [cacheHas, cacheGet_set_self]

theorem cacheHas_set (c : Cache) (k k' : String) (v : Entry) :
    cacheHas (cacheSet c k v) k' = (k' == k || cacheHas c k') := by
  by_cases h : k' = k
  · subst h; simp [cacheHas, cacheGet_set_self]
  · have hb : (k' == k) = false := beq_eq_false_iff_ne.mpr h
    simp [cacheHas, cacheGet_set_other c k k' v h, hb]

/-! ### `add_user` and `record_user` lemmas -/

theorem add_user_get_self (c : Cache) (uid : UserId) (un st src : String)
    (now : Nat) :
    cacheGet (add_user c uid un st src now) (toString uid) =
      some { username := some un, status := some st, source := some src
             timestamp := some now
             attempts := some ((((cacheGet c (toString uid)).map
               (fun e => e.attempts.getD 0)).getD 0) + 1) } :=
  cacheGet_set_self c (toString uid) _

theorem add_user_get_other (c : Cache) (uid : UserId) (un st src : String)
    (now : Nat) (k : String) (h : k ≠ toString uid) :
    cacheGet (add_user c uid un st src now) k = cacheGet c k :=
  cacheGet_set_other c (toString uid) k _ h

theorem record_user_get_other (s : OrchState) (uid : UserId)
    (un st src : String) (k : String) (h : k ≠ toString uid) :
    cacheGet (record_user s uid un st src).cache k = cacheGet s.cache k :=
  add_user_get_other s.cache uid un st src s.clock k h

theorem record_user_processed (s : OrchState) (uid : UserId)
    (un st src : String) :
    is_processed (record_user s uid un st src).cache uid = true := by
  simp [is_processed, cacheHas, record_user, add_user, cacheGet_set_self]

theorem cacheHas_record (s : OrchState) (uid : UserId) (un st src : String)
    (k : String) :
    cacheHas (record_user s uid un st src).cache k
      = (k == toString uid || cacheHas s.cache k) :=
  cacheHas_set s.cache (toString uid) k _

/-! ### Shared concrete inputs -/

/-- Thresholds requiring at least 10 followers, nothing else. -/
def exSettings : Settings :=
  { min_followers := some 10, max_followers := none
    skip_private_accounts := false, skip_business_accounts := false }

/-- A public, non-business candidate with 3 followers, not followed yet. -/
def exProfile : Profile :=
  { pk := 7, username := "bob", follower_count := 3, is_private := false
    is_business := false, following := false }

/-- Fresh orchestrator state: empty cache, clock at 0. -/
def s0 : OrchState := { cache := [], clock := 0 }

/-- An entry as `add_user` writes it, with the given status. -/
def entryWith (st : String) : Entry :=
  { username := some "u", status := some st, source := some "s"
    timestamp := some 0, attempts := some 1 }

/-- The purge scenario ledger: 1 followed, 2 failed, 3 failed, 4 skipped. -/
def exLedger3 : Cache :=
  [("1", entryWith "followed"), ("2", entryWith "failed"),
   ("3", entryWith "failed"), ("4", entryWith "skipped")]

/-- An entry carrying only a status field (as a hand-edited or foreign
snapshot may). -/
def entryStatusOnly (st : Option String) : Entry :=
  { username := none, status := st, source := none, timestamp := none
    attempts := none }

/-! ### C1: policy purity -/

/-- Case analysis of `_should_follow_user`: it returns `(True, ·)` with
the state untouched, rejects an already-cached user with the state
untouched, or rejects recording the candidate itself as skipped. -/
theorem should_follow_user_cases (settings : Settings) (s : OrchState)
    (info : Profile) (source : String) :
    should_follow_user settings s info source = (true, s)
    ∨ (should_follow_user settings s info source = (false, s)
        ∧ is_processed s.cache info.pk = true)
    ∨ (should_follow_user settings s info source =
          (false, record_user s info.pk info.username "skipped" source)
        ∧ is_processed s.cache info.pk = false) := by
  unfold should_follow_user
  split_ifs with h1 h2 h3 h4 h5
  · exact Or.inr (Or.inl ⟨rfl, h1⟩)
  · exact Or.inr (Or.inr ⟨rfl, by simpa using h1⟩)
  · exact Or.inr (Or.inr ⟨rfl, by simpa using h1⟩)
  · exact Or.inr (Or.inr ⟨rfl, by simpa using h1⟩)
  · exact Or.inr (Or.inr ⟨rfl, by simpa using h1⟩)
  · exact Or.inl rfl

/-- C1 counterexample: the claim says the policy leaves the ledger
unchanged for every candidate and ledger state, but on a candidate with
3 followers against a 10-follower minimum, `_should_follow_user` itself
writes a skipped entry into the cache. -/
theorem C1_counterexample :
    (should_follow_user exSettings s0 exProfile "target").2.cache ≠ s0.cache := by
  decide

/-- C1 (amended): `_should_follow_user` is a deterministic function of
its candidate and ledger-state inputs, it leaves the state unchanged
whenever it accepts and whenever the candidate is already in the cache,
and it never touches any cache key other than the candidate's own —
but on threshold/private/business rejections it records the candidate
as skipped itself rather than leaving all ledger mutation to the
orchestrator. -/
theorem C1_policy_frame (settings : Settings) (s : OrchState)
    (info : Profile) (source : String) :
    ((should_follow_user settings s info source).1 = true →
      (should_follow_user settings s info source).2 = s)
    ∧ (is_processed s.cache info.pk = true →
      (should_follow_user settings s info source).2 = s)
    ∧ (∀ k, k ≠ toString info.pk →
        cacheGet (should_follow_user settings s info source).2.cache k
          = cacheGet s.cache k) := by
  rcases should_follow_user_cases settings s info source with h | ⟨h, hp⟩ | ⟨h, hp⟩
  · rw [h]; exact ⟨fun _ => rfl, fun _ => rfl, fun k _ => rfl⟩
  · rw [h]; exact ⟨by simp, fun _ => rfl, fun k _ => rfl⟩
  · rw [h]
    refine ⟨by simp, ?_, ?_⟩
    · intro hpp; rw [hp] at hpp; cases hpp
    · intro k hk; exact record_user_get_other s info.pk info.username "skipped" source k hk

/-- C1 witness: the frame part of the amended claim at a concrete input. -/
theorem C1_policy_frame_witness :
    cacheGet (should_follow_user exSettings s0 exProfile "target").2.cache "9"
      = cacheGet s0.cache "9" :=
  (C1_policy_frame exSettings s0 exProfile "target").2.2 "9" (by decide)

/-! ### C3: clear_failed -/

/-- C3 counterexample: on the spec's own purge scenario, two failed
entries are removed but the Python function returns `None`, not the
integer 2 — `clear_failed` has no `return` statement. -/
theorem C3_counterexample :
    (clear_failed exLedger3).loggedCount = 2
    ∧ (clear_failed exLedger3).ret = none
    ∧ ¬ (clear_failed exLedger3).ret = some 2 := by
  decide

/-- C3 (amended): `clear_failed` keeps exactly the entries whose status
is not `"failed"`, the count it logs plus the surviving entries add up
to the original size, it persists the filtered cache, and it returns
`None` (the removed count is logged, not returned); on the spec's
scenario ledger only keys 1 and 4 survive and `get_stats` then reports
`total = 2`. -/
theorem C3_clear_failed :
    (∀ (c : Cache) (p : String × Entry),
      p ∈ (clear_failed c).cache ↔ p ∈ c ∧ ¬ p.2.status = some "failed")
    ∧ (∀ c : Cache,
        (clear_failed c).loggedCount + (clear_failed c).cache.length = c.length)
    ∧ (∀ c : Cache, (clear_failed c).saved = (clear_failed c).cache)
    ∧ (∀ c : Cache, (clear_failed c).ret = none)
    ∧ (clear_failed exLedger3).cache.map Prod.fst = ["1", "4"]
    ∧ (get_stats (clear_failed exLedger3).cache).total = 2 := by
  refine ⟨?_, ?_, fun c => rfl, fun c => rfl, by decide, by decide⟩
  · intro c p
    simp [clear_failed, List.mem_filter]
  · intro c
    simp only [clear_failed, List.length_map,
      ← List.countP_eq_length_filter]
    induction c with
    | nil => rfl
    | cons p c ih =>
        simp only [List.countP_cons, List.length_cons]
        cases h : p.2.status == some "failed" <;> simp [h] <;> omega

/-- C3 witness: a surviving entry of the scenario ledger, through the
membership characterisation. -/
theorem C3_clear_failed_witness :
    ("1", entryWith "followed") ∈ (clear_failed exLedger3).cache :=
  (C3_clear_failed.1 exLedger3 ("1", entryWith "followed")).mpr
    ⟨by decide, by decide⟩

/-! ### C6: rate-limit handling in follow_user -/

/-- C6: when `user_follow` raises `PleaseWaitFewMinutes`, `follow_user`
records the user as failed, sleeps exactly 300 seconds before
returning, returns `False`, and has invoked `user_follow` exactly once
for this user (no retry inside the call). -/
theorem C6_rate_limited (env : Env) (s : OrchState) (uid : UserId)
    (uname source : String) (h : env.followOutcome uid = .rateLimited) :
    ((get_user (follow_user env s uid uname source).state.cache uid).map
        Entry.status = some (some "failed"))
    ∧ (follow_user env s uid uname source).sleeps = [300]
    ∧ (follow_user env s uid uname source).ret = .ok false
    ∧ (follow_user env s uid uname source).follows = [uid] := by
  simp [follow_user, h, get_user, record_user, add_user_get_self]

/-- An external client that always signals rate limiting. -/
def envRL : Env :=
  { resolve := fun _ => none, fullInfo := fun _ => none
    followOutcome := fun _ => .rateLimited, followers := fun _ _ => [] }

/-- C6 witness: the rate-limited behaviour at a concrete input. -/
theorem C6_rate_limited_witness :
    ((get_user (follow_user envRL s0 7 "bob" "t").state.cache 7).map
        Entry.status = some (some "failed"))
    ∧ (follow_user envRL s0 7 "bob" "t").sleeps = [300]
    ∧ (follow_user envRL s0 7 "bob" "t").ret = .ok false
    ∧ (follow_user envRL s0 7 "bob" "t").follows = [7] :=
  C6_rate_limited envRL s0 7 "bob" "t" rfl

/-! ### C10: get_stats -/

/-- Component laws of one stats bump. -/
theorem bumpStat_total (s : Stats) (t : String) :
    (bumpStat s t).total = s.total + (if t = "total" then 1 else 0) := by
  unfold bumpStat; split_ifs <;> simp_all

theorem bumpStat_followed (s : Stats) (t : String) :
    (bumpStat s t).followed = s.followed + (if t = "followed" then 1 else 0) := by
  unfold bumpStat; split_ifs <;> simp_all

theorem bumpStat_failed (s : Stats) (t : String) :
    (bumpStat s t).failed = s.failed + (if t = "failed" then 1 else 0) := by
  unfold bumpStat; split_ifs <;> simp_all

theorem bumpStat_skipped (s : Stats) (t : String) :
    (bumpStat s t).skipped = s.skipped + (if t = "skipped" then 1 else 0) := by
  unfold bumpStat; split_ifs <;> simp_all

theorem bumpStat_already (s : Stats) (t : String) :
    (bumpStat s t).already_following
      = s.already_following + (if t = "already_following" then 1 else 0) := by
  unfold bumpStat; split_ifs <;> simp_all

/-- Bridge between the defaulted status string and the stored field. -/
theorem status_if_eq (o : Option String) (name : String)
    (h : ¬ name = "unknown") :
    (if o.getD "unknown" = name then (1 : Nat) else 0)
      = (if (o == some name) = true then 1 else 0) := by
  cases o with
  | none =>
      rw [if_neg (fun q => h q.symm)]
      simp
  | some s => simp [beq_iff_eq]

/-- Closed form of the `get_stats` fold from an arbitrary accumulator. -/
theorem get_stats_go (l : Cache) (init : Stats) :
    l.foldl (fun s p => bumpStat s (p.2.status.getD "unknown")) init =
      { total := init.total + l.countP (fun p => p.2.status == some "total")
        followed := init.followed
          + l.countP (fun p => p.2.status == some "followed")
        failed := init.failed + l.countP (fun p => p.2.status == some "failed")
        skipped := init.skipped
          + l.countP (fun p => p.2.status == some "skipped")
        already_following := init.already_following
          + l.countP (fun p => p.2.status == some "already_following") } := by
  induction l generalizing init with
  | nil => simp
  | cons p l ih =>
      rw [List.foldl_cons, ih]
      simp only [List.countP_cons, Stats.mk.injEq]
      refine ⟨?_, ?_, ?_, ?_, ?_⟩
      · rw [bumpStat_total, status_if_eq _ _ (by decide)]; omega
      · rw [bumpStat_followed, status_if_eq _ _ (by decide)]; omega
      · rw [bumpStat_failed, status_if_eq _ _ (by decide)]; omega
      · rw [bumpStat_skipped, status_if_eq _ _ (by decide)]; omega
      · rw [bumpStat_already, status_if_eq _ _ (by decide)]; omega

/-- C10 counterexample: a single entry whose status string is `"total"`
(a stats-dict key) makes `get_stats` report `total = 2` for a one-entry
ledger, so `total` is not always the number of entries. -/
theorem C10_counterexample :
    (get_stats [("1", entryStatusOnly (some "total"))]).total = 2
    ∧ ([("1", entryStatusOnly (some "total"))] : Cache).length = 1 := by
  decide

/-- C10 (amended): `total` equals the number of entries plus the number
of entries whose status is exactly `"total"` (such a status hits the
`total` key of the stats dict); each per-status counter counts exactly
the entries with that precise status string; an entry with any other or
missing status is counted in `total` but in no per-status counter, so
the four counters can sum to strictly less than `total`, as on a ledger
whose single entry has no status. -/
theorem C10_stats (c : Cache) :
    (get_stats c).total
        = c.length + c.countP (fun p => p.2.status == some "total")
    ∧ (get_stats c).followed = c.countP (fun p => p.2.status == some "followed")
    ∧ (get_stats c).failed = c.countP (fun p => p.2.status == some "failed")
    ∧ (get_stats c).skipped = c.countP (fun p => p.2.status == some "skipped")
    ∧ (get_stats c).already_following
        = c.countP (fun p => p.2.status == some "already_following")
    ∧ ((get_stats [("1", entryStatusOnly none)]).followed
        + (get_stats [("1", entryStatusOnly none)]).failed
        + (get_stats [("1", entryStatusOnly none)]).skipped
        + (get_stats [("1", entryStatusOnly none)]).already_following
        < (get_stats [("1", entryStatusOnly none)]).total) := by
  refine ⟨?_, ?_, ?_, ?_, ?_, by decide⟩ <;>
    simp [get_stats, get_stats_go]

/-! ### C2: record upsert invariant -/

/-- The arguments of one `add_user` call besides the user id. -/
structure CallArgs where
  username : String
  status : String
  source : String
deriving Repr, DecidableEq

/-- A sequence of `add_user` calls for one user id, in order. -/
def recordSeq (s : OrchState) (uid : UserId) : List CallArgs → OrchState
  | [] => s
  | a :: rest => recordSeq (record_user s uid a.username a.status a.source) uid rest

/-- The effective attempt count the next `add_user` call will read:
`cache.get(str(user_id), \x7b\x7d).get("attempts", 0)`. -/
def attemptsOf (c : Cache) (uid : UserId) : Nat :=
  ((cacheGet c (toString uid)).map (fun e => e.attempts.getD 0)).getD 0

theorem attemptsOf_record (s : OrchState) (uid : UserId) (un st src : String) :
    attemptsOf (record_user s uid un st src).cache uid
      = attemptsOf s.cache uid + 1 := by
  unfold attemptsOf record_user
  rw [add_user_get_self]
  simp

/-- Behaviour of a nonempty call sequence from any state: the entry
under the user's key carries the last call's fields, a timestamp from
the last write, and the initial effective attempts plus the number of
calls; other keys are untouched; the clock advances once per call; key
uniqueness is preserved. -/
theorem recordSeq_props (uid : UserId) (calls : List CallArgs)
    (hne : calls ≠ []) : ∀ s : OrchState,
    cacheGet (recordSeq s uid calls).cache (toString uid) =
      some { username := some (calls.getLast hne).username
             status := some (calls.getLast hne).status
             source := some (calls.getLast hne).source
             timestamp := some (s.clock + calls.length - 1)
             attempts := some (attemptsOf s.cache uid + calls.length) }
    ∧ (∀ k, k ≠ toString uid →
        cacheGet (recordSeq s uid calls).cache k = cacheGet s.cache k)
    ∧ (recordSeq s uid calls).clock = s.clock + calls.length
    ∧ (cacheKeysNodup s.cache → cacheKeysNodup (recordSeq s uid calls).cache) := by
  induction calls with
  | nil => cases hne rfl
  | cons a rest ih =>
      intro s
      cases rest with
      | nil =>
          refine ⟨?_, ?_, rfl, ?_⟩
          · simp only [recordSeq, record_user]
            rw [add_user_get_self]
            simp [attemptsOf, List.getLast]
          · intro k hk
            simp only [recordSeq]
            exact record_user_get_other s uid a.username a.status a.source k hk
          · intro hn
            exact cacheSet_nodup s.cache (toString uid) _ hn
      | cons b rest' =>
          have hne' : b :: rest' ≠ [] := by simp
          obtain ⟨hget, hframe, hclock, hnod⟩ :=
            ih hne' (record_user s uid a.username a.status a.source)
          refine ⟨?_, ?_, ?_, ?_⟩
          · rw [show recordSeq s uid (a :: b :: rest') =
                recordSeq (record_user s uid a.username a.status a.source)
                  uid (b :: rest') from rfl]
            rw [hget, attemptsOf_record]
            have hlast : (b :: rest').getLast hne'
                = (a :: b :: rest').getLast (by simp) :=
              (List.getLast_cons hne').symm
            simp only [record_user, hlast]
            refine congrArg some ?_
            refine congrArg₂ (fun x y => Entry.mk _ _ _ x y) ?_ ?_
            · refine congrArg some ?_
              simp only [List.length_cons]
              omega
            · refine congrArg some ?_
              simp only [List.length_cons]
              omega
          · intro k hk
            rw [show recordSeq s uid (a :: b :: rest') =
                recordSeq (record_user s uid a.username a.status a.source)
                  uid (b :: rest') from rfl]
            rw [hframe k hk]
            exact record_user_get_other s uid a.username a.status a.source k hk
          · rw [show recordSeq s uid (a :: b :: rest') =
                recordSeq (record_user s uid a.username a.status a.source)
                  uid (b :: rest') from rfl]
            rw [hclock]
            simp only [record_user, List.length_cons]
            omega
          · intro hn
            rw [show recordSeq s uid (a :: b :: rest') =
                recordSeq (record_user s uid a.username a.status a.source)
                  uid (b :: rest') from rfl]
            exact hnod (cacheSet_nodup s.cache (toString uid) _ hn)

/-- C2: starting from a ledger with unique keys and no entry for the
user, any nonempty sequence of `add_user` calls for that user leaves
exactly one entry under the user's key, whose username, status, source
and timestamp are those of the last call and whose attempt count is
the number of calls; every other key is untouched and key uniqueness
is preserved. -/
theorem C2_record_upsert (c : Cache) (clock : Nat) (uid : UserId)
    (calls : List CallArgs) (hn : cacheKeysNodup c)
    (h0 : cacheHas c (toString uid) = false) (hne : calls ≠ []) :
    ((recordSeq ⟨c, clock⟩ uid calls).cache.map Prod.fst).count (toString uid) = 1
    ∧ cacheGet (recordSeq ⟨c, clock⟩ uid calls).cache (toString uid) =
        some { username := some (calls.getLast hne).username
               status := some (calls.getLast hne).status
               source := some (calls.getLast hne).source
               timestamp := some (clock + calls.length - 1)
               attempts := some calls.length }
    ∧ (∀ k, k ≠ toString uid →
        cacheGet (recordSeq ⟨c, clock⟩ uid calls).cache k = cacheGet c k)
    ∧ cacheKeysNodup (recordSeq ⟨c, clock⟩ uid calls).cache := by
  obtain ⟨hget, hframe, _, hnod⟩ := recordSeq_props uid calls hne ⟨c, clock⟩
  have hnone : cacheGet c (toString uid) = none := by
    cases hcg : cacheGet c (toString uid) with
    | none => rfl
    | some e => unfold cacheHas at h0; rw [hcg] at h0; cases h0
  have hA : attemptsOf c uid = 0 := by
    unfold attemptsOf; rw [hnone]; rfl
  have hget' := hget
  rw [show (⟨c, clock⟩ : OrchState).cache = c from rfl,
    show (⟨c, clock⟩ : OrchState).clock = clock from rfl, hA] at hget'
  simp only [Nat.zero_add] at hget'
  refine ⟨?_, hget', hframe, hnod hn⟩
  apply List.count_eq_one_of_mem (hnod hn)
  apply (cacheHas_iff_mem _ (toString uid)).mp
  unfold cacheHas
  rw [hget']
  rfl

/-- C2 witness: two calls for user 42 from an empty ledger leave one
entry with the second call's fields and attempt count 2. -/
theorem C2_record_upsert_witness :
    ((recordSeq ⟨[], 5⟩ 42 [⟨"alice", "followed", "specific"⟩,
        ⟨"ally", "failed", "retry"⟩]).cache.map Prod.fst).count (toString 42) = 1
    ∧ cacheGet (recordSeq ⟨[], 5⟩ 42 [⟨"alice", "followed", "specific"⟩,
        ⟨"ally", "failed", "retry"⟩]).cache (toString 42) =
        some { username := some "ally", status := some "failed"
               source := some "retry", timestamp := some 6
               attempts := some 2 } := by
  have h := C2_record_upsert [] 5 42
    [⟨"alice", "followed", "specific"⟩, ⟨"ally", "failed", "retry"⟩]
    (by simp [cacheKeysNodup]) rfl (by simp)
  exact ⟨h.1, by simpa using h.2.1⟩

/-! ### C5: rejection-check order in the followers pipeline -/

theorem follow_user_follows (env : Env) (s : OrchState) (uid : UserId)
    (un src : String) : (follow_user env s uid un src).follows = [uid] := by
  unfold follow_user
  cases env.followOutcome uid with
  | ok b => cases b <;> rfl
  | rateLimited => rfl
  | clientError => rfl
  | raise => rfl

/-- C5: processing one candidate of the followers pipeline behaves
exactly as the spec-ordered verdict dictates — the checks are applied
in the order ledger, already-following, minimum, maximum, private,
business, first match wins; an already-in-ledger rejection performs no
profile fetch and no ledger write, an already-following rejection
records `already_following`, the four policy rejections record
`skipped`, and a candidate matching no rule gets a follow attempt. -/
theorem C5_order (settings : Settings) (env : Env) (target : String)
    (s : OrchState) (uid : UserId) (uname : String) (info : Profile)
    (h1 : env.fullInfo uid = some info) (h2 : info.pk = uid) :
    followers_step env settings target s uid uname =
      match specVerdict settings s.cache uid info with
      | .alreadyProcessed =>
          { state := s, dFollowed := 0, follows := [], fetches := [] }
      | .alreadyFollowing =>
          { state := record_user s uid uname "already_following" target
            dFollowed := 0, follows := [], fetches := [uid] }
      | .tooFew =>
          { state := record_user s uid info.username "skipped" target
            dFollowed := 0, follows := [], fetches := [uid] }
      | .tooMany =>
          { state := record_user s uid info.username "skipped" target
            dFollowed := 0, follows := [], fetches := [uid] }
      | .privateAccount =>
          { state := record_user s uid info.username "skipped" target
            dFollowed := 0, follows := [], fetches := [uid] }
      | .businessAccount =>
          { state := record_user s uid info.username "skipped" target
            dFollowed := 0, follows := [], fetches := [uid] }
      | .accept =>
          { state := (follow_user env s uid uname target).state
            dFollowed :=
              if (follow_user env s uid uname target).ret = .ok true then 1 else 0
            follows := [uid], fetches := [uid] } := by
  by_cases hp : is_processed s.cache uid = true
  · simp [followers_step, specVerdict, hp]
  · have hp' : is_processed s.cache uid = false := by simpa using hp
    have hsp : is_processed s.cache info.pk = false := by rw [h2]; exact hp'
    by_cases hf : info.following = true
    · simp [followers_step, specVerdict, hp', hf, h1]
    · have hf' : info.following = false := by simpa using hf
      by_cases hmin : info.follower_count < settings.min_followers.getD 0
      · simp [followers_step, specVerdict, hp', hf', h1, should_follow_user,
          hsp, hmin, h2]
      · by_cases hmax : (match settings.max_followers with
            | some m => decide (info.follower_count > m)
            | none => false) = true
        · simp [followers_step, specVerdict, hp', hf', h1, should_follow_user,
            hsp, hmin, hmax, h2]
        · have hmax' := eq_false_of_ne_true hmax
          by_cases hpriv : (settings.skip_private_accounts && info.is_private) = true
          · simp [followers_step, specVerdict, hp', hf', h1, should_follow_user,
              hsp, hmin, hmax', hpriv, h2]
          · have hpriv' := eq_false_of_ne_true hpriv
            by_cases hbus : (settings.skip_business_accounts && info.is_business) = true
            · simp [followers_step, specVerdict, hp', hf', h1, should_follow_user,
                hsp, hmin, hmax', hpriv', hbus, h2]
            · have hbus' := eq_false_of_ne_true hbus
              simp [followers_step, specVerdict, hp', hf', h1, should_follow_user,
                hsp, hmin, hmax', hpriv', hbus', h2, follow_user_follows]

/-- A client whose only known profile is user 7's. -/
def env5 : Env :=
  { resolve := fun _ => none
    fullInfo := fun uid => if uid = 7 then some exProfile else none
    followOutcome := fun _ => .ok true, followers := fun _ _ => [] }

/-- C5 witness: candidate 7 with 3 followers against a minimum of 10 is
rejected by the minimum-follower rule and recorded as skipped (under
the full profile's username, not the batch username). -/
theorem C5_order_witness :
    followers_step env5 exSettings "t" s0 7 "bobby"
      = { state := record_user s0 7 "bob" "skipped" "t"
          dFollowed := 0, follows := [], fetches := [7] } := by
  have h := C5_order exSettings env5 "t" s0 7 "bobby" exProfile rfl rfl
  rw [show specVerdict exSettings s0.cache 7 exProfile = Verdict.tooFew from by decide] at h
  exact h

/-! ### C9: profile-fetch failure containment -/

/-- C9: when fetching a candidate's full profile raises, the candidate
is skipped with no ledger write (the loop continues from the very same
state on the remaining candidates, only the fetch log records the
attempted call), and the user id is still absent from the ledger after
the candidate is processed, so it stays eligible for a future run. -/
theorem C9_fetch_fail (env : Env) (settings : Settings) (target : String)
    (cap : Nat) (uid : UserId) (uname : String)
    (rest : List (UserId × String)) (s : OrchState) (k : Nat)
    (h1 : k < cap) (h2 : is_processed s.cache uid = false)
    (h3 : env.fullInfo uid = none) :
    (followers_step env settings target s uid uname
        = { state := s, dFollowed := 0, follows := [], fetches := [uid] })
    ∧ (followersLoop env settings target cap ((uid, uname) :: rest) s k =
        { state := (followersLoop env settings target cap rest s k).state
          followedCount :=
            (followersLoop env settings target cap rest s k).followedCount
          follows := (followersLoop env settings target cap rest s k).follows
          fetches :=
            uid :: (followersLoop env settings target cap rest s k).fetches })
    ∧ is_processed
        (followers_step env settings target s uid uname).state.cache uid
        = false := by
  have hstep : followers_step env settings target s uid uname
      = { state := s, dFollowed := 0, follows := [], fetches := [uid] } := by
    simp [followers_step, h2, h3]
  have hcap : ¬ k ≥ cap := by omega
  refine ⟨hstep, ?_, by rw [hstep]; exact h2⟩
  simp only [followersLoop]
  rw [if_neg hcap, hstep]
  simp

/-- C9 witness: a fetch failure on candidate 3 from the empty ledger. -/
theorem C9_fetch_fail_witness :
    followers_step envRL exSettings "t" s0 3 "c"
      = { state := s0, dFollowed := 0, follows := [], fetches := [3] } :=
  (C9_fetch_fail envRL exSettings "t" 1 3 "c" [] s0 0 (by decide) rfl rfl).1

/-! ### C4: the explicit-list pipeline -/

theorem follow_user_has_mono (env : Env) (s : OrchState) (uid : UserId)
    (un src k : String) (h : cacheHas s.cache k = true) :
    cacheHas (follow_user env s uid un src).state.cache k = true := by
  unfold follow_user
  cases env.followOutcome uid with
  | ok b => cases b <;> simp [cacheHas_record, h]
  | rateLimited => simp [cacheHas_record, h]
  | clientError => simp [cacheHas_record, h]
  | raise => exact h

theorem specific_step_has_mono (env : Env) (s : OrchState) (u : String)
    (k : String) (h : cacheHas s.cache k = true) :
    cacheHas (specific_step env s u).state.cache k = true := by
  unfold specific_step
  cases env.resolve u with
  | none => exact h
  | some uid =>
      by_cases hp : is_processed s.cache uid = true
      · simpa [hp] using h
      · have hp' : is_processed s.cache uid = false := by simpa using hp
        cases hffi : env.fullInfo uid with
        | none => simpa [hp', hffi] using h
        | some info =>
            by_cases hfol : info.following = true
            · simp [hp', hffi, hfol, cacheHas_record, h]
            · have hfol' := eq_false_of_ne_true hfol
              simpa [hp', hffi, hfol'] using
                follow_user_has_mono env s uid u "specific" k h

/-- Any fetch or follow performed by one explicit-list step is on a
user that was not yet in the cache. -/
theorem specific_step_mem (env : Env) (s : OrchState) (u : String)
    (uid : UserId)
    (h : uid ∈ (specific_step env s u).fetches
      ∨ uid ∈ (specific_step env s u).follows) :
    is_processed s.cache uid = false := by
  cases henv : env.resolve u with
  | none => simp [specific_step, henv] at h
  | some uid' =>
      by_cases hp : is_processed s.cache uid' = true
      · simp [specific_step, henv, hp] at h
      · have hp' : is_processed s.cache uid' = false := by simpa using hp
        cases hffi : env.fullInfo uid' with
        | none =>
            simp [specific_step, henv, hp', hffi] at h
            subst h; exact hp'
        | some info =>
            by_cases hfol : info.following = true
            · simp [specific_step, henv, hp', hffi, hfol] at h
              subst h; exact hp'
            · have hfol' := eq_false_of_ne_true hfol
              simp [specific_step, henv, hp', hffi, hfol',
                follow_user_follows] at h
              subst h; exact hp'

/-- The follow counter of one explicit-list step counts exactly its
successful follow invocations. -/
theorem specific_step_count (env : Env) (s : OrchState) (u : String) :
    (specific_step env s u).dFollowed
      = ((specific_step env s u).follows.filter
          (fun x => isOkTrue (env.followOutcome x))).length := by
  unfold specific_step
  cases env.resolve u with
  | none => rfl
  | some uid =>
      by_cases hp : is_processed s.cache uid = true
      · simp [hp]
      · have hp' : is_processed s.cache uid = false := by simpa using hp
        cases hffi : env.fullInfo uid with
        | none => simp [hp', hffi]
        | some info =>
            by_cases hfol : info.following = true
            · simp [hp', hffi, hfol]
            · have hfol' := eq_false_of_ne_true hfol
              simp only [hp', hffi, hfol', Bool.false_eq_true, if_false]
              unfold follow_user
              cases hout : env.followOutcome uid with
              | ok b => cases b <;> simp [isOkTrue, hout]
              | rateLimited => simp [isOkTrue, hout]
              | clientError => simp [isOkTrue, hout]
              | raise => simp [isOkTrue, hout]

/-- The client for the explicit-list scenario: `"bob"` resolves to user
7, whose profile has 3 followers; follow calls succeed. -/
def env4 : Env :=
  { resolve := fun u => if u = "bob" then some 7 else none
    fullInfo := fun uid => if uid = 7 then some exProfile else none
    followOutcome := fun _ => .ok true, followers := fun _ _ => [] }

/-- C4 counterexample: with a configured minimum of 10 followers the
eligibility policy rejects the 3-follower candidate, yet
`follow_specific_accounts` still issues the follow and counts it as a
success — the policy is never consulted on the explicit list. -/
theorem C4_counterexample :
    (follow_specific_accounts env4 s0 ["bob"]).follows = [7]
    ∧ (follow_specific_accounts env4 s0 ["bob"]).followedCount = 1
    ∧ (should_follow_user exSettings s0 exProfile "specific").1 = false := by
  decide

/-- C4 (amended): `follow_specific_accounts` resolves each username and
skips it on a resolution failure; a user already in the ledger is
skipped with no profile fetch and no follow; an already-following user
is recorded and skipped; any other user whose profile fetch succeeds
gets a follow attempt unconditionally — the threshold/private/business
eligibility policy is not consulted; the returned count is exactly the
number of issued follow calls whose outcome is a truthy result. -/
theorem C4_explicit_list (env : Env) (s : OrchState)
    (accounts : List String) :
    ((follow_specific_accounts env s accounts).followedCount
      = ((follow_specific_accounts env s accounts).follows.filter
          (fun u => isOkTrue (env.followOutcome u))).length)
    ∧ (∀ uid : UserId, is_processed s.cache uid = true →
        uid ∉ (follow_specific_accounts env s accounts).fetches
        ∧ uid ∉ (follow_specific_accounts env s accounts).follows)
    ∧ (∀ (u : String) (uid : UserId) (info : Profile),
        env.resolve u = some uid → is_processed s.cache uid = false →
        env.fullInfo uid = some info → info.following = false →
        (specific_step env s u).follows = [uid]) := by
  refine ⟨?_, ?_, ?_⟩
  · induction accounts generalizing s with
    | nil => rfl
    | cons u rest ih =>
        simp only [follow_specific_accounts]
        rw [List.filter_append, List.length_append,
          specific_step_count env s u, ih]
  · induction accounts generalizing s with
    | nil =>
        intro uid _
        exact ⟨List.not_mem_nil uid, List.not_mem_nil uid⟩
    | cons u rest ih =>
        intro uid h
        have hmono : is_processed (specific_step env s u).state.cache uid = true :=
          specific_step_has_mono env s u (toString uid) h
        obtain ⟨ihf, ihl⟩ := ih (specific_step env s u).state uid hmono
        constructor
        · simp only [follow_specific_accounts, List.mem_append]
          rintro (hin | hin)
          · have := specific_step_mem env s u uid (Or.inl hin)
            rw [h] at this; cases this
          · exact ihf hin
        · simp only [follow_specific_accounts, List.mem_append]
          rintro (hin | hin)
          · have := specific_step_mem env s u uid (Or.inr hin)
            rw [h] at this; cases this
          · exact ihl hin
  · intro u uid info hr hp hfi hfol
    simp [specific_step, hr, hp, hfi, hfol, follow_user_follows]

/-- C4 witness: the amended unconditional-attempt clause at the
counterexample's input. -/
theorem C4_explicit_list_witness :
    (specific_step env4 s0 "bob").follows = [7] :=
  (C4_explicit_list env4 s0 ["bob"]).2.2 "bob" 7 exProfile rfl rfl rfl rfl

/-! ### Step-level lemmas for the followers pipeline -/

theorem follow_user_ret_ok (env : Env) (s : OrchState) (uid : UserId)
    (un src : String) :
    ((follow_user env s uid un src).ret = .ok true)
      ↔ env.followOutcome uid = .ok true := by
  unfold follow_user
  cases env.followOutcome uid with
  | ok b => cases b <;> simp
  | rateLimited => simp
  | clientError => simp
  | raise => simp

theorem follow_user_get_frame (env : Env) (s : OrchState) (uid : UserId)
    (un src k : String) (hk : k ≠ toString uid) :
    cacheGet (follow_user env s uid un src).state.cache k = cacheGet s.cache k := by
  unfold follow_user
  cases env.followOutcome uid with
  | ok b => cases b <;> exact record_user_get_other s uid un _ src k hk
  | rateLimited => exact record_user_get_other s uid un _ src k hk
  | clientError => exact record_user_get_other s uid un _ src k hk
  | raise => rfl

theorem follow_user_processed (env : Env) (s : OrchState) (uid : UserId)
    (un src : String) (hnr : env.followOutcome uid ≠ .raise) :
    is_processed (follow_user env s uid un src).state.cache uid = true := by
  unfold follow_user
  cases h : env.followOutcome uid with
  | ok b => cases b <;> exact record_user_processed s uid un _ src
  | rateLimited => exact record_user_processed s uid un _ src
  | clientError => exact record_user_processed s uid un _ src
  | raise => exact absurd h hnr

/-- When the cache check inside the policy fails, the policy verdict is
exactly `acceptB`, and acceptance leaves the state untouched. -/
theorem should_follow_user_of_accept (settings : Settings) (s : OrchState)
    (info : Profile) (source : String)
    (hnp : is_processed s.cache info.pk = false)
    (hacc : acceptB settings info = true) :
    should_follow_user settings s info source = (true, s) := by
  unfold acceptB at hacc
  rw [Bool.and_eq_true, Bool.and_eq_true, Bool.and_eq_true] at hacc
  obtain ⟨⟨⟨h1, h2⟩, h3⟩, h4⟩ := hacc
  unfold should_follow_user
  rw [hnp]
  simp only [Bool.false_eq_true, if_false]
  rw [if_neg (by simpa using h1), if_neg (by simp [Bool.not_eq_true'] at h2; simp [h2]),
    if_neg (by simp [Bool.not_eq_true'] at h3
               rcases h3 with h | h <;> simp [h]),
    if_neg (by simp [Bool.not_eq_true'] at h4
               rcases h4 with h | h <;> simp [h])]

/-- Exhaustive description of one followers-pipeline step under a
well-formed client (`user_info(uid).pk = uid`): skip with no write and
no fetch (already cached), skip after a failed fetch, a single
`record_user` write on the candidate's own key, or a follow attempt on
an uncached candidate that passed every check. -/
theorem followers_step_cases (env : Env) (settings : Settings)
    (target : String) (s : OrchState) (uid : UserId) (uname : String)
    (hpk : ∀ u i, env.fullInfo u = some i → i.pk = u) :
    followers_step env settings target s uid uname
      = { state := s, dFollowed := 0, follows := [], fetches := [] }
    ∨ followers_step env settings target s uid uname
      = { state := s, dFollowed := 0, follows := [], fetches := [uid] }
    ∨ (∃ un st, followers_step env settings target s uid uname
        = { state := record_user s uid un st target, dFollowed := 0
            follows := [], fetches := [uid] }
        ∧ is_processed s.cache uid = false)
    ∨ (followers_step env settings target s uid uname
        = { state := (follow_user env s uid uname target).state
            dFollowed :=
              if (follow_user env s uid uname target).ret = .ok true then 1 else 0
            follows := [uid], fetches := [uid] }
        ∧ is_processed s.cache uid = false
        ∧ ∃ info, env.fullInfo uid = some info ∧ info.following = false
            ∧ acceptB settings info = true) := by
  by_cases hp : is_processed s.cache uid = true
  · left; simp [followers_step, hp]
  · have hp' : is_processed s.cache uid = false := by simpa using hp
    cases hffi : env.fullInfo uid with
    | none => right; left; simp [followers_step, hp', hffi]
    | some info =>
        have hpkeq : info.pk = uid := hpk uid info hffi
        by_cases hfol : info.following = true
        · right; right; left
          exact ⟨uname, "already_following",
            by simp [followers_step, hp', hffi, hfol], hp'⟩
        · have hfol' := eq_false_of_ne_true hfol
          rcases should_follow_user_cases settings s info target with
            hc | ⟨_, hcp⟩ | ⟨hc, _⟩
          · right; right; right
            refine ⟨?_, hp', info, rfl, hfol', ?_⟩
            · simp [followers_step, hp', hffi, hfol', hc, follow_user_follows]
            · -- acceptance forces all four checks to pass
              by_contra hacc
              have hacc' : acceptB settings info = false := by simpa using hacc
              unfold acceptB at hacc'
              unfold should_follow_user at hc
              rw [hpkeq, hp'] at hc
              simp only [Bool.false_eq_true, if_false] at hc
              rw [Bool.and_eq_false_iff, Bool.and_eq_false_iff,
                Bool.and_eq_false_iff] at hacc'
              rcases hacc' with ((h1 | h2) | h3) | h4
              · rw [if_pos (by simpa using h1)] at hc; cases hc
              · rw [Bool.not_eq_false'] at h2
                rw [if_neg ?_, if_pos (by simpa using h2)] at hc
                · cases hc
                · intro hmin
                  revert h2
                  cases settings.max_followers with
                  | none => simp
                  | some m =>
                      simp only [decide_eq_true_iff]
                      intro h2
                      -- both min-violation and max-violation cannot matter:
                      -- if the min check fired first the result is already a
                      -- rejection, contradicting hc
                      exact absurd (by rw [if_pos hmin] at hc; exact hc)
                        (by intro q; cases q)
              · rw [Bool.not_eq_false'] at h3
                by_cases hmin : info.follower_count < settings.min_followers.getD 0
                · rw [if_pos hmin] at hc; cases hc
                · rw [if_neg hmin] at hc
                  by_cases hmax : (match settings.max_followers with
                      | some m => decide (info.follower_count > m)
                      | none => false) = true
                  · rw [if_pos hmax] at hc; cases hc
                  · rw [if_neg hmax, if_pos h3] at hc; cases hc
              · rw [Bool.not_eq_false'] at h4
                by_cases hmin : info.follower_count < settings.min_followers.getD 0
                · rw [if_pos hmin] at hc; cases hc
                · rw [if_neg hmin] at hc
                  by_cases hmax : (match settings.max_followers with
                      | some m => decide (info.follower_count > m)
                      | none => false) = true
                  · rw [if_pos hmax] at hc; cases hc
                  · rw [if_neg hmax] at hc
                    by_cases hpriv : (settings.skip_private_accounts
                        && info.is_private) = true
                    · rw [if_pos hpriv] at hc; cases hc
                    · rw [if_neg hpriv, if_pos h4] at hc; cases hc
          · rw [hpkeq, hp'] at hcp; cases hcp
          · right; right; left
            refine ⟨info.username, "skipped", ?_, hp'⟩
            simp [followers_step, hp', hffi, hfol', hc, hpkeq]

theorem isOkTrue_eq (o : FollowOutcome) : isOkTrue o = true ↔ o = .ok true := by
  cases o with
  | ok b => cases b <;> simp [isOkTrue]
  | rateLimited => simp [isOkTrue]
  | clientError => simp [isOkTrue]
  | raise => simp [isOkTrue]

theorem followers_step_get_frame (env : Env) (settings : Settings)
    (target : String) (s : OrchState) (uid : UserId) (uname : String)
    (hpk : ∀ u i, env.fullInfo u = some i → i.pk = u)
    (k : String) (hk : k ≠ toString uid) :
    cacheGet (followers_step env settings target s uid uname).state.cache k
      = cacheGet s.cache k := by
  rcases followers_step_cases env settings target s uid uname hpk with
    h | h | ⟨un, st, h, _⟩ | ⟨h, _, _⟩
  · rw [h]
  · rw [h]
  · rw [h]; exact record_user_get_other s uid un st target k hk
  · rw [h]; exact follow_user_get_frame env s uid uname target k hk

theorem followers_step_has_frame (env : Env) (settings : Settings)
    (target : String) (s : OrchState) (uid : UserId) (uname : String)
    (hpk : ∀ u i, env.fullInfo u = some i → i.pk = u)
    (k : String) (hk : k ≠ toString uid) :
    cacheHas (followers_step env settings target s uid uname).state.cache k
      = cacheHas s.cache k := by
  unfold cacheHas
  rw [followers_step_get_frame env settings target s uid uname hpk k hk]

theorem followers_step_has_mono (env : Env) (settings : Settings)
    (target : String) (s : OrchState) (uid : UserId) (uname : String)
    (hpk : ∀ u i, env.fullInfo u = some i → i.pk = u)
    (k : String) (h : cacheHas s.cache k = true) :
    cacheHas (followers_step env settings target s uid uname).state.cache k
      = true := by
  rcases followers_step_cases env settings target s uid uname hpk with
    h1 | h1 | ⟨un, st, h1, _⟩ | ⟨h1, _, _⟩
  · rw [h1]; exact h
  · rw [h1]; exact h
  · rw [h1]
    show cacheHas (record_user s uid un st target).cache k = true
    rw [cacheHas_record]; simp [h]
  · rw [h1]
    exact follow_user_has_mono env s uid uname target k h

theorem followers_step_follows_mem (env : Env) (settings : Settings)
    (target : String) (s : OrchState) (uid : UserId) (uname : String)
    (hpk : ∀ u i, env.fullInfo u = some i → i.pk = u) (uid' : UserId)
    (h : uid' ∈ (followers_step env settings target s uid uname).follows) :
    uid' = uid ∧ is_processed s.cache uid = false := by
  rcases followers_step_cases env settings target s uid uname hpk with
    h1 | h1 | ⟨un, st, h1, _⟩ | ⟨h1, hp, _⟩
  · rw [h1] at h; simp at h
  · rw [h1] at h; simp at h
  · rw [h1] at h; simp at h
  · rw [h1] at h
    simp only [List.mem_singleton] at h
    exact ⟨h, hp⟩

theorem followers_step_followed_processed (env : Env) (settings : Settings)
    (target : String) (s : OrchState) (uid : UserId) (uname : String)
    (hpk : ∀ u i, env.fullInfo u = some i → i.pk = u) (uid' : UserId)
    (h : uid' ∈ (followers_step env settings target s uid uname).follows)
    (hnr : env.followOutcome uid' ≠ .raise) :
    is_processed
      (followers_step env settings target s uid uname).state.cache uid'
      = true := by
  obtain ⟨rfl, _⟩ :=
    followers_step_follows_mem env settings target s uid uname hpk uid' h
  rcases followers_step_cases env settings target s uid' uname hpk with
    h1 | h1 | ⟨un, st, h1, _⟩ | ⟨h1, _, _⟩
  · rw [h1] at h; simp at h
  · rw [h1] at h; simp at h
  · rw [h1] at h; simp at h
  · rw [h1]
    exact follow_user_processed env s uid' uname target hnr

theorem followers_step_eligible (env : Env) (settings : Settings)
    (target : String) (s : OrchState) (uid : UserId) (uname : String)
    (hpk : ∀ u i, env.fullInfo u = some i → i.pk = u)
    (helig : eligibleB env settings s.cache (uid, uname) = true) :
    followers_step env settings target s uid uname
      = { state := record_user s uid uname "followed" target, dFollowed := 1
          follows := [uid], fetches := [uid] }
    ∧ env.followOutcome uid = .ok true := by
  unfold eligibleB at helig
  rw [Bool.and_eq_true] at helig
  obtain ⟨hp, hrest⟩ := helig
  have hp' : is_processed s.cache uid = false := by simpa using hp
  cases hffi : env.fullInfo uid with
  | none => rw [hffi] at hrest; cases hrest
  | some info =>
      rw [hffi] at hrest
      rw [Bool.and_eq_true, Bool.and_eq_true] at hrest
      obtain ⟨⟨hfol, hacc⟩, hok⟩ := hrest
      have hfol' : info.following = false := by simpa using hfol
      have hok' : env.followOutcome uid = .ok true := (isOkTrue_eq _).mp hok
      have hsh := should_follow_user_of_accept settings s info target
        (by rw [hpk uid info hffi]; exact hp') hacc
      refine ⟨?_, hok'⟩
      simp [followers_step, hp', hffi, hfol', hsh, follow_user, hok']

theorem followers_step_not_eligible (env : Env) (settings : Settings)
    (target : String) (s : OrchState) (uid : UserId) (uname : String)
    (hpk : ∀ u i, env.fullInfo u = some i → i.pk = u)
    (helig : eligibleB env settings s.cache (uid, uname) = false) :
    (followers_step env settings target s uid uname).dFollowed = 0
    ∧ (followers_step env settings target s uid uname).follows.filter
        (fun x => isOkTrue (env.followOutcome x)) = [] := by
  rcases followers_step_cases env settings target s uid uname hpk with
    h1 | h1 | ⟨un, st, h1, _⟩ | ⟨h1, hp, info, hffi, hfol, hacc⟩
  · rw [h1]; exact ⟨rfl, rfl⟩
  · rw [h1]; exact ⟨rfl, rfl⟩
  · rw [h1]; exact ⟨rfl, rfl⟩
  · have hnok : env.followOutcome uid ≠ .ok true := by
      intro hok
      have htrue : eligibleB env settings s.cache (uid, uname) = true := by
        unfold eligibleB
        simp [hp, hffi, hfol, hacc, hok, isOkTrue]
      rw [helig] at htrue; cases htrue
    have hf : isOkTrue (env.followOutcome uid) = false := by
      cases hio : isOkTrue (env.followOutcome uid)
      · rfl
      · exact absurd ((isOkTrue_eq _).mp hio) hnok
    rw [h1]
    constructor
    · show (if (follow_user env s uid uname target).ret = .ok true then 1 else 0) = 0
      rw [if_neg]
      intro q
      exact hnok ((follow_user_ret_ok env s uid uname target).mp q)
    · show List.filter _ [uid] = []
      simp [hf]

/-! ### Loop-level lemmas -/

theorem followersLoop_capped (env : Env) (settings : Settings)
    (target : String) (cap : Nat) (batch : List (UserId × String))
    (s : OrchState) (k : Nat) (h : k ≥ cap) :
    followersLoop env settings target cap batch s k
      = { state := s, followedCount := k, follows := [], fetches := [] } := by
  cases batch with
  | nil => rfl
  | cons p rest =>
      obtain ⟨uid, uname⟩ := p
      simp [followersLoop, h]

theorem followersLoop_has_mono (env : Env) (settings : Settings)
    (target : String) (cap : Nat)
    (hpk : ∀ u i, env.fullInfo u = some i → i.pk = u) :
    ∀ (batch : List (UserId × String)) (s : OrchState) (k : Nat)
      (key : String), cacheHas s.cache key = true →
    cacheHas (followersLoop env settings target cap batch s k).state.cache key
      = true := by
  intro batch
  induction batch with
  | nil => intro s k key h; exact h
  | cons p rest ih =>
      intro s k key h
      obtain ⟨uid, uname⟩ := p
      by_cases hcap : k ≥ cap
      · rw [followersLoop_capped env settings target cap _ s k hcap]; exact h
      · simp only [followersLoop]
        rw [if_neg hcap]
        exact ih _ _ key
          (followers_step_has_mono env settings target s uid uname hpk key h)

/-- Cap-reach invariant of the candidate loop: with a well-formed
client, string-distinct batch keys, a running count `k ≤ cap`, and at
least `cap - k` eligible candidates ahead, the loop returns exactly
`cap` follows, issues exactly `cap - k` successful follow calls, and —
whenever it had work left — its very last issued follow call is a
success, so no follow attempt happens after the cap is reached. -/
theorem followersLoop_cap_reach (env : Env) (settings : Settings)
    (target : String) (cap : Nat)
    (hpk : ∀ u i, env.fullInfo u = some i → i.pk = u) :
    ∀ (batch : List (UserId × String)) (s : OrchState) (k : Nat),
    ((batch.map fun p => toString p.1).Nodup) → k ≤ cap →
    cap - k ≤ batch.countP (eligibleB env settings s.cache) →
    (followersLoop env settings target cap batch s k).followedCount = cap
    ∧ ((followersLoop env settings target cap batch s k).follows.filter
        (fun x => isOkTrue (env.followOutcome x))).length = cap - k
    ∧ (k < cap →
        ((followersLoop env settings target cap batch s k).follows.getLast?).map
          (fun x => isOkTrue (env.followOutcome x)) = some true) := by
  intro batch
  induction batch with
  | nil =>
      intro s k hnd hk hcnt
      simp only [List.countP_nil, Nat.le_zero] at hcnt
      have hkc : k = cap := by omega
      subst hkc
      exact ⟨rfl, by simp [followersLoop], fun h => absurd h (by omega)⟩
  | cons p rest ih =>
      intro s k hnd hk hcnt
      obtain ⟨uid, uname⟩ := p
      by_cases hcap : k ≥ cap
      · have hkc : k = cap := by omega
        rw [followersLoop_capped env settings target cap _ s k hcap]
        exact ⟨hkc, by simp [hkc], fun h => absurd h (by omega)⟩
      · have hklt : k < cap := by omega
        simp only [List.map_cons] at hnd
        obtain ⟨hkeyni, hndrest⟩ := List.nodup_cons.mp hnd
        have hpres : ∀ s' : OrchState,
            (∀ key, key ≠ toString uid →
              cacheHas s'.cache key = cacheHas s.cache key) →
            rest.countP (eligibleB env settings s'.cache)
              = rest.countP (eligibleB env settings s.cache) := by
          intro s' hframe
          apply List.countP_congr
          intro q hq
          have hkey : toString q.1 ≠ toString uid := by
            intro he; exact hkeyni (he ▸ List.mem_map_of_mem _ hq)
          have heq : eligibleB env settings s'.cache q
              = eligibleB env settings s.cache q := by
            unfold eligibleB is_processed
            rw [hframe _ hkey]
          rw [heq]
        simp only [followersLoop]
        rw [if_neg hcap]
        by_cases helig : eligibleB env settings s.cache (uid, uname) = true
        · obtain ⟨hstep, hok⟩ :=
            followers_step_eligible env settings target s uid uname hpk helig
          rw [hstep]
          have hframe : ∀ key, key ≠ toString uid →
              cacheHas (record_user s uid uname "followed" target).cache key
                = cacheHas s.cache key := by
            intro key hkey
            rw [cacheHas_record]
            simp [beq_eq_false_iff_ne.mpr hkey]
          have hcnt1 : cap - k ≤ rest.countP (eligibleB env settings s.cache) + 1 := by
            rw [List.countP_cons] at hcnt
            simp only [helig, if_true] at hcnt
            omega
          have hcnt' : cap - (k + 1) ≤ rest.countP (eligibleB env settings
              (record_user s uid uname "followed" target).cache) := by
            rw [hpres _ hframe]
            omega
          obtain ⟨ihf, ihs, ihl⟩ := ih _ (k + 1) hndrest (by omega) hcnt'
          refine ⟨ihf, ?_, ?_⟩
          · show (List.filter _ ([uid] ++ _)).length = cap - k
            rw [List.filter_append, List.length_append, ihs]
            have hone : (List.filter (fun x => isOkTrue (env.followOutcome x))
                [uid]).length = 1 := by
              simp [hok, isOkTrue]
            rw [hone]
            omega
          · intro _
            by_cases hk1 : k + 1 < cap
            · have hlast := ihl hk1
              have hne : (followersLoop env settings target cap rest
                  (record_user s uid uname "followed" target) (k + 1)).follows
                  ≠ [] := by
                intro he
                rw [he] at ihs
                simp at ihs
                omega
              rw [List.getLast?_append]
              cases hgl : (followersLoop env settings target cap rest
                  (record_user s uid uname "followed" target) (k + 1)).follows.getLast? with
              | none => exact absurd (List.getLast?_eq_none_iff.mp hgl) hne
              | some x =>
                  rw [hgl] at hlast
                  simp only [Option.or_some]
                  exact hlast
            · have hcapped := followersLoop_capped env settings target cap rest
                (record_user s uid uname "followed" target) (k + 1) (by omega)
              rw [hcapped]
              simp [hok, isOkTrue]
        · have helig' : eligibleB env settings s.cache (uid, uname) = false := by
            simpa using helig
          obtain ⟨hd0, hfilter⟩ :=
            followers_step_not_eligible env settings target s uid uname hpk helig'
          rw [hd0, Nat.add_zero]
          have hframe := fun key hkey =>
            followers_step_has_frame env settings target s uid uname hpk key hkey
          have hcnt' : cap - k ≤ rest.countP (eligibleB env settings
              (followers_step env settings target s uid uname).state.cache) := by
            rw [hpres _ hframe]
            rw [List.countP_cons, helig'] at hcnt
            simp at hcnt
            omega
          obtain ⟨ihf, ihs, ihl⟩ := ih _ k hndrest hk hcnt'
          refine ⟨ihf, ?_, ?_⟩
          · rw [List.filter_append, List.length_append, ihs, hfilter]
            simp
          · intro hklt2
            have hlast := ihl hklt2
            have hne : (followersLoop env settings target cap rest
                (followers_step env settings target s uid uname).state k).follows
                ≠ [] := by
              intro he
              rw [he] at ihs
              simp at ihs
              omega
            rw [List.getLast?_append]
            cases hgl : (followersLoop env settings target cap rest
                (followers_step env settings target s uid uname).state k).follows.getLast? with
            | none => exact absurd (List.getLast?_eq_none_iff.mp hgl) hne
            | some x =>
                rw [hgl] at hlast
                simp only [Option.or_some]
                exact hlast

/-! ### C7: per-source cap enforcement -/

/-- C7: with a well-formed client, distinct batch keys, and at least
`cap` eligible candidates in the fetched batch,
`follow_account_followers` returns exactly `cap`, issues exactly `cap`
successful follow calls, and its last issued follow call is a success —
i.e. no follow attempt is issued after the cap-th success even though
candidates remain in the batch. -/
theorem C7_cap (env : Env) (settings : Settings) (s : OrchState)
    (target : String) (cap : Nat) (tuid : UserId)
    (hpk : ∀ u i, env.fullInfo u = some i → i.pk = u)
    (hres : env.resolve target = some tuid)
    (hnd : ((env.followers tuid (cap * 3)).map fun p => toString p.1).Nodup)
    (helig : cap ≤ (env.followers tuid (cap * 3)).countP
        (eligibleB env settings s.cache)) :
    (follow_account_followers env settings s target cap).followedCount = cap
    ∧ ((follow_account_followers env settings s target cap).follows.filter
        (fun x => isOkTrue (env.followOutcome x))).length = cap
    ∧ (0 < cap →
        ((follow_account_followers env settings s target cap).follows.getLast?).map
          (fun x => isOkTrue (env.followOutcome x)) = some true) := by
  obtain ⟨h1, h2, h3⟩ := followersLoop_cap_reach env settings target cap hpk
    (env.followers tuid (cap * 3)) s 0 hnd (Nat.zero_le cap)
    (by simpa using helig)
  unfold follow_account_followers
  rw [hres]
  exact ⟨h1, by simpa using h2, h3⟩

/-- A client whose target `"t"` has three eligible followers. -/
def env7 : Env :=
  { resolve := fun u => if u = "t" then some 100 else none
    fullInfo := fun uid => some
      { pk := uid, username := "u", follower_count := 50
        is_private := false, is_business := false, following := false }
    followOutcome := fun _ => .ok true
    followers := fun uid _ =>
      if uid = 100 then [(1, "a"), (2, "b"), (3, "c")] else [] }

/-- C7 witness: cap 2 against a batch of 3 eligible candidates yields
exactly 2 follows. -/
theorem C7_cap_witness :
    (follow_account_followers env7 exSettings s0 "t" 2).followedCount = 2
    ∧ ((follow_account_followers env7 exSettings s0 "t" 2).follows.filter
        (fun x => isOkTrue (env7.followOutcome x))).length = 2 := by
  have h := C7_cap env7 exSettings s0 "t" 2 100
    (fun u i hi => by cases hi; rfl) rfl (by decide) (by decide)
  exact ⟨h.1, h.2.1⟩

/-! ### C8: at-most-one follow attempt per user -/

/-- At-most-once invariant of the candidate loop, provided every
`user_follow` call gets recorded (no uncaught exception): the issued
follow list has no duplicates, never touches a user already in the
cache, and every followed user ends up in the final cache. -/
theorem followersLoop_once (env : Env) (settings : Settings)
    (target : String) (cap : Nat)
    (hpk : ∀ u i, env.fullInfo u = some i → i.pk = u)
    (hnr : ∀ u : UserId, env.followOutcome u ≠ .raise) :
    ∀ (batch : List (UserId × String)) (s : OrchState) (k : Nat),
    (followersLoop env settings target cap batch s k).follows.Nodup
    ∧ (∀ uid : UserId, is_processed s.cache uid = true →
        uid ∉ (followersLoop env settings target cap batch s k).follows)
    ∧ (∀ uid : UserId,
        uid ∈ (followersLoop env settings target cap batch s k).follows →
        is_processed
          (followersLoop env settings target cap batch s k).state.cache uid
          = true) := by
  intro batch
  induction batch with
  | nil =>
      intro s k
      refine ⟨List.nodup_nil, ?_, ?_⟩
      · intro uid _ hmem; simp [followersLoop] at hmem
      · intro uid hmem; simp [followersLoop] at hmem
  | cons p rest ih =>
      intro s k
      obtain ⟨uid0, uname⟩ := p
      by_cases hcap : k ≥ cap
      · rw [followersLoop_capped env settings target cap _ s k hcap]
        exact ⟨List.nodup_nil, fun uid _ hm => by simp at hm,
          fun uid hm => by simp at hm⟩
      · simp only [followersLoop]
        rw [if_neg hcap]
        obtain ⟨ihnd, ihnot, ihfin⟩ :=
          ih (followers_step env settings target s uid0 uname).state
            (k + (followers_step env settings target s uid0 uname).dFollowed)
        have hshape : (followers_step env settings target s uid0 uname).follows = []
            ∨ (followers_step env settings target s uid0 uname).follows = [uid0] := by
          rcases followers_step_cases env settings target s uid0 uname hpk with
            h1 | h1 | ⟨un, st, h1, _⟩ | ⟨h1, _, _⟩ <;> rw [h1] <;> simp
        refine ⟨?_, ?_, ?_⟩
        · show ((followers_step env settings target s uid0 uname).follows
            ++ _).Nodup
          rcases hshape with hsf | hsf
          · rw [hsf]; simpa using ihnd
          · rw [hsf, List.singleton_append, List.nodup_cons]
            refine ⟨?_, ihnd⟩
            have hmem0 : uid0 ∈ (followers_step env settings target s uid0 uname).follows := by
              rw [hsf]; simp
            exact ihnot uid0 (followers_step_followed_processed env settings
              target s uid0 uname hpk uid0 hmem0 (hnr uid0))
        · intro uid hproc hmem
          rcases List.mem_append.mp hmem with hm | hm
          · obtain ⟨rfl, hfree⟩ := followers_step_follows_mem env settings
              target s uid0 uname hpk uid hm
            rw [hproc] at hfree; cases hfree
          · exact ihnot uid (followers_step_has_mono env settings target s
              uid0 uname hpk (toString uid) hproc) hm
        · intro uid hmem
          rcases List.mem_append.mp hmem with hm | hm
          · exact followersLoop_has_mono env settings target cap hpk rest _ _
              (toString uid) (followers_step_followed_processed env settings
                target s uid0 uname hpk uid hm (hnr uid))
          · exact ihfin uid hm

/-- Function-level at-most-once facts for one
`follow_account_followers` run. -/
theorem follow_account_followers_once (env : Env) (settings : Settings)
    (hpk : ∀ u i, env.fullInfo u = some i → i.pk = u)
    (hnr : ∀ u : UserId, env.followOutcome u ≠ .raise)
    (s : OrchState) (target : String) (cap : Nat) :
    (follow_account_followers env settings s target cap).follows.Nodup
    ∧ (∀ uid : UserId, is_processed s.cache uid = true →
        uid ∉ (follow_account_followers env settings s target cap).follows)
    ∧ (∀ uid : UserId,
        uid ∈ (follow_account_followers env settings s target cap).follows →
        is_processed
          (follow_account_followers env settings s target cap).state.cache uid
          = true) := by
  unfold follow_account_followers
  cases hres : env.resolve target with
  | none =>
      exact ⟨List.nodup_nil, fun uid _ hm => by simp at hm,
        fun uid hm => by simp at hm⟩
  | some tuid =>
      exact followersLoop_once env settings target cap hpk hnr
        (env.followers tuid (cap * 3)) s 0

/-- C8: in a `follow_account_followers` run against a well-formed
client in which every `user_follow` outcome gets recorded (no uncaught
exception, i.e. every ledger write happens), no user id receives two
follow calls, a user already in the ledger receives none, every
followed user is in the ledger afterwards, and a subsequent run started
from the resulting ledger state issues no follow call for any user
followed in the first run. -/
theorem C8_at_most_once (env : Env) (settings : Settings) (s : OrchState)
    (target : String) (cap : Nat)
    (hpk : ∀ u i, env.fullInfo u = some i → i.pk = u)
    (hnr : ∀ u : UserId, env.followOutcome u ≠ .raise) :
    (follow_account_followers env settings s target cap).follows.Nodup
    ∧ (∀ uid : UserId, is_processed s.cache uid = true →
        uid ∉ (follow_account_followers env settings s target cap).follows)
    ∧ (∀ uid : UserId,
        uid ∈ (follow_account_followers env settings s target cap).follows →
        is_processed
          (follow_account_followers env settings s target cap).state.cache uid
          = true)
    ∧ (∀ (target2 : String) (cap2 : Nat) (uid : UserId),
        uid ∈ (follow_account_followers env settings s target cap).follows →
        uid ∉ (follow_account_followers env settings
            (follow_account_followers env settings s target cap).state
            target2 cap2).follows) := by
  obtain ⟨h1, h2, h3⟩ :=
    follow_account_followers_once env settings hpk hnr s target cap
  refine ⟨h1, h2, h3, ?_⟩
  intro target2 cap2 uid hm
  exact (follow_account_followers_once env settings hpk hnr
    (follow_account_followers env settings s target cap).state
    target2 cap2).2.1 uid (h3 uid hm)

/-- A client whose follower batch lists user 1 twice. -/
def env8 : Env :=
  { resolve := fun _ => some 100
    fullInfo := fun uid => some
      { pk := uid, username := "u", follower_count := 50
        is_private := false, is_business := false, following := false }
    followOutcome := fun _ => .ok true
    followers := fun _ _ => [(1, "a"), (1, "a")] }

/-- C8 witness: even with user 1 listed twice in the batch, the issued
follow list has no duplicate. -/
theorem C8_at_most_once_witness :
    (follow_account_followers env8 exSettings s0 "t" 5).follows.Nodup :=
  (C8_at_most_once env8 exSettings s0 "t" 5
    (fun u i hi => by cases hi; rfl)
    (fun u h => FollowOutcome.noConfusion h)).1

end InstagramFollower
